import Mathlib

/-!
Verification development for the fxc2-rs shader-compiler front end.

The embedding below follows `src/main.rs`, the live binary of the
repository.  Command-line tokens are modelled as lists of characters
(`Tok`), because every operation the Rust code performs on them is
expressed through `chars()` iterators (`chars().count()`, `skip`, `take`).
The `ParseOpt` methods `find_index`, `parse_one` and `parse_arg`
(main.rs lines 117-169) become pure functions from an argument list to a
result together with the updated argument list.  The straight-line body of
`main` (lines 172-257) becomes `mainParse`, a function from the initial
argument list to a `MainResult` describing how the process run ends at the
argument-handling stage: a help message, a "missing <item>" diagnostic, a
"too many input files" diagnostic (each of which returns
`ExitCode::FAILURE` before the compiler is invoked), or a fully parsed
options record that is handed to `D3DCompileFromFile`.
-/

set_option autoImplicit false

namespace Fxc2

/-- Command-line tokens, modelled as lists of characters. -/
abbrev Tok := List Char

/-- Switch characters accepted in front of an option name (main.rs line 121). -/
def isSwitch (c : Char) : Bool := c == '-' || c == '/'

/-- Predicate of the closure inside `ParseOpt::find_index` (main.rs lines
118-127): a token matches `option` when it is longer than one character,
starts with `-` or `/`, and the characters after the switch character start
with `option` (fxc allows attached arguments, so `option` only has to be a
prefix of the rest of the token). -/
def matchesOpt (option : Tok) (i : Tok) : Bool :=
  if i.length == 1 || !(i.head? == some '-' || i.head? == some '/') then
    false
  else
    (i.drop 1).take option.length == option

/-- Embedding of `ParseOpt::find_index` (main.rs lines 117-129): index of the first token
matching `option`, via `Iterator::position`. -/
def find_index (option : Tok) : List Tok → Option Nat
  | [] => none
  | a :: as =>
    if matchesOpt option a then some 0
    else (find_index option as).map (· + 1)

/-- Embedding of `ParseOpt::parse_one` (main.rs lines 131-137): remove and return the
first token matching `option`; the second component is the updated
argument list. -/
def parse_one (option : Tok) (args : List Tok) : Option Tok × List Tok :=
  match find_index option args with
  | some index => (some (args.getD index []), args.eraseIdx index)
  | none => (none, args)

/-- Embedding of `ParseOpt::parse_arg` (main.rs lines 143-169): parse an option that
takes one argument.  If the matched token is longer than the switch
character plus the option name, the rest of the token is the attached
argument; otherwise, if another token follows, that token is the detached
argument and both tokens are removed; otherwise nothing is removed and
`none` is returned. -/
def parse_arg (option : Tok) (args : List Tok) : Option Tok × List Tok :=
  match find_index option args with
  | none => (none, args)
  | some index =>
    let opt_len := option.length + 1
    let arg := args.getD index []
    let arg_len := arg.length
    if opt_len < arg_len then
      (some (arg.drop opt_len), args.eraseIdx index)
    else if index + 1 < args.length then
      (some (args.getD (index + 1) []), (args.eraseIdx index).eraseIdx index)
    else
      (none, args)

/-- Option name `?` (main.rs line 176). -/
def optQ : Tok := ['?']

/-- Option name `help` (main.rs line 176). -/
def optHelp : Tok := "help".toList

/-- Option name `nologo` (main.rs line 180). -/
def optNologo : Tok := "nologo".toList

/-- Option name `T` (main.rs line 182). -/
def optT : Tok := ['T']

/-- Option name `E` (main.rs line 189). -/
def optE : Tok := ['E']

/-- Option name `Vn` (main.rs line 195). -/
def optVn : Tok := "Vn".toList

/-- Option name `Fh` (main.rs line 197). -/
def optFh : Tok := "Fh".toList

/-- Option name `Vi` (main.rs line 203). -/
def optVi : Tok := "Vi".toList

/-- Option name `D` (main.rs line 207). -/
def optD : Tok := ['D']

/-- Mirrors `PROFILE_PREFIX_TABLE` (main.rs lines 28-77), the table pairing
a shader profile name with the piece of text placed in front of the entry
point when deriving the default output variable name.  The identifier is
shortened here; each pair is (profile name, name fragment). -/
def PROFILE_PFX_TABLE : List (Tok × Tok) :=
  [("ps_2_0".toList, "g_ps20".toList),
   ("ps_2_a".toList, "g_ps21".toList),
   ("ps_2_b".toList, "g_ps21".toList),
   ("ps_2_sw".toList, "g_ps2ff".toList),
   ("ps_3_0".toList, "g_ps30".toList),
   ("ps_3_sw".toList, "g_ps3ff".toList),
   ("vs_1_1".toList, "g_vs11".toList),
   ("vs_2_0".toList, "g_vs20".toList),
   ("vs_2_a".toList, "g_vs21".toList),
   ("vs_2_sw".toList, "g_vs2ff".toList),
   ("vs_3_0".toList, "g_vs30".toList),
   ("vs_3_sw".toList, "g_vs3ff".toList)]

/-- First-match scan of `PROFILE_PFX_TABLE` (the `for`/`break` loop of
main.rs lines 246-251). -/
def profileLookup (model : Tok) : Option (Tok × Tok) :=
  PROFILE_PFX_TABLE.find? (fun pr => pr.1 == model)

/-- Name part of a `-D` argument (main.rs lines 210-212): the text before
the first `=`, i.e. the first segment of `arg.split('=')`. -/
def defineName (arg : Tok) : Tok := arg.takeWhile (fun c => c != '=')

/-- Value part of a `-D` argument (main.rs lines 213-214): the second
segment of `arg.split('=')` (the text between the first and second `=`),
or `"1"` when the argument contains no `=`. -/
def defineValue (arg : Tok) : Tok :=
  match arg.dropWhile (fun c => c != '=') with
  | [] => ['1']
  | _ :: rest => rest.takeWhile (fun c => c != '=')

/-- One name/value pair pushed onto `defines` (main.rs lines 210-215). -/
def mkDefine (arg : Tok) : Tok × Tok := (defineName arg, defineValue arg)

/-- Fuel-indexed version of the `while let Some(arg) = args.parse_arg("D")`
loop of main.rs lines 207-216.  Each successful `parse_arg` removes at
least one token, so `fuel := s.length` steps always suffice; once the state
is empty both the fuel-exhausted case and the `none` case return the same
pair, so the fuel never changes the result. -/
def collectDefinesFuel : Nat → List Tok → List (Tok × Tok) × List Tok
  | 0, s => ([], s)
  | Nat.succ fuel, s =>
    match parse_arg optD s with
    | (some arg, s') =>
      let r := collectDefinesFuel fuel s'
      (mkDefine arg :: r.1, r.2)
    | (none, s') => ([], s')

/-- The `-D` collection loop of main.rs lines 207-216: repeatedly parse
`D` options, returning the accumulated name/value defines and the
remaining argument list. -/
def collectDefines (s : List Tok) : List (Tok × Tok) × List Tok :=
  collectDefinesFuel s.length s

/-- The parsed-options record that reaches the `D3DCompileFromFile` call
(main.rs lines 285-297).  `flags1` and `flags2` model the sixth and
seventh arguments of that call, which in the source are the literal
constants `0` and `0` (lines 292-293). -/
structure Options where
  model : Tok
  entry_point : Tok
  output_file : Tok
  variable_name : Tok
  defines : List (Tok × Tok)
  input_file : Tok
  flags1 : Nat
  flags2 : Nat
  deriving DecidableEq, Repr

/-- Outcome of the argument-handling stage of `main` (main.rs lines
172-257).  `help` models the `print_usage_arg` return for `-?`/`-help`
(line 177), `missing what` models `print_usage_missing(what)` (lines 185,
192, 200, 231), `tooMany leftover` models the "Unhandled arguments" report
followed by `print_usage_toomany` (lines 235-241), and `ok` models the run
reaching the compilation section with the given options record.  All three
non-`ok` outcomes return `ExitCode::FAILURE` from `main` before
`D3DCompileFromFile` (line 286) or `File::create` (line 324) is reached. -/
inductive MainResult where
  | help
  | missing (what : Tok)
  | tooMany (leftover : List Tok)
  | ok (r : Options)
  deriving DecidableEq, Repr

/-- Assembly of the options record, including the default output variable
name (main.rs lines 243-257): when no `-Vn` value was parsed, the name is
the table fragment for the profile followed by `_` and the entry point,
or `g_` followed by the entry point when the profile is not in the table. -/
def finishParse (model entry ofile : Tok) (vn : Option Tok)
    (defs : List (Tok × Tok)) (input : Tok) : Options :=
  { model := model
    entry_point := entry
    output_file := ofile
    variable_name :=
      match vn with
      | some v => v
      | none =>
        match profileLookup model with
        | some pr => pr.2 ++ '_' :: entry
        | none => 'g' :: '_' :: entry
    defines := defs
    input_file := input
    flags1 := 0
    flags2 := 0 }

/-- The short-circuit test `args.parse_one("?").is_some() ||
args.parse_one("help").is_some()` (main.rs line 176); when `?` is absent
`parse_one` leaves the list unchanged, so testing `help` on
`(parse_one optQ args).2` matches the source exactly. -/
def helpRequested (args : List Tok) : Bool :=
  ((parse_one optQ args).1).isSome ||
    ((parse_one optHelp (parse_one optQ args).2).1).isSome

/-- Argument list after the `?`/`help` tests and the `nologo` removal
(main.rs lines 176-180), in the run where help was not requested. -/
def stage0 (args : List Tok) : List Tok :=
  (parse_one optNologo (parse_one optHelp (parse_one optQ args).2).2).2

/-- The `-T` parse (main.rs line 182). -/
def stageT (args : List Tok) : Option Tok × List Tok :=
  parse_arg optT (stage0 args)

/-- The `-E` parse (main.rs line 189). -/
def stageE (args : List Tok) : Option Tok × List Tok :=
  parse_arg optE (stageT args).2

/-- The `-Vn` parse (main.rs line 195), which precedes the `-Fh` parse in
the source. -/
def stageVn (args : List Tok) : Option Tok × List Tok :=
  parse_arg optVn (stageE args).2

/-- The `-Fh` parse (main.rs line 197). -/
def stageFh (args : List Tok) : Option Tok × List Tok :=
  parse_arg optFh (stageVn args).2

/-- Argument list after the `-Vi` removal (main.rs lines 203-205). -/
def stageVi (args : List Tok) : List Tok :=
  (parse_one optVi (stageFh args).2).2

/-- The `-D` collection loop applied to the post-`Vi` state (main.rs
lines 206-216). -/
def stageD (args : List Tok) : List (Tok × Tok) × List Tok :=
  collectDefines (stageVi args)

/-- The argument-handling stage of `main` (main.rs lines 172-257): the
pipeline of parses in source order, the early `return` on each missing
required item, consumption of the first remaining token as the input file
(`args.get()`, line 228), the "too many input files" report when tokens
remain after it (lines 235-241), and the assembly of the final options
record with the default variable name (lines 243-257). -/
def mainParse (args : List Tok) : MainResult :=
  if helpRequested args then .help
  else
    match (stageT args).1 with
    | none => .missing "model".toList
    | some model =>
      match (stageE args).1 with
      | none => .missing "entryPoint".toList
      | some entry =>
        match (stageFh args).1 with
        | none => .missing "outputFile".toList
        | some ofile =>
          match stageD args with
          | (_, []) => .missing "inputFile".toList
          | (defs, input :: rest) =>
            if rest.isEmpty then
              .ok (finishParse model entry ofile (stageVn args).1 defs input)
            else
              .tooMany rest

/-- Whether the process run described by a `MainResult` has already ended
with `ExitCode::FAILURE` at the argument-handling stage (every branch of
`main` other than the fall-through to compilation returns `FAILURE`). -/
def MainResult.earlyFailureExit : MainResult → Bool
  | .ok _ => false
  | _ => true

/-- Whether the run reaches the `D3DCompileFromFile` call (main.rs line
286): only the fall-through `ok` branch does; every other outcome returns
from `main` beforehand. -/
def MainResult.callsD3DCompile : MainResult → Bool
  | .ok _ => true
  | _ => false

/-- Whether the run can reach `File::create(output_file)` (main.rs line
324): only the `ok` branch can; every other outcome returns from `main`
beforehand. -/
def MainResult.createsOutputFile : MainResult → Bool
  | .ok _ => true
  | _ => false

/-- Input-file component of an `ok` result, if any. -/
def MainResult.inputFile? : MainResult → Option Tok
  | .ok r => some r.input_file
  | _ => none

/-- Whether a token starts with a switch character. -/
def headIsSwitch (t : Tok) : Bool :=
  match t with
  | [] => false
  | c :: _ => isSwitch c

/-- The option names handled by `main` (main.rs lines 176-216). -/
def handledOpts : List Tok :=
  [optQ, optHelp, optNologo, optT, optE, optVn, optFh, optVi, optD]

/-- Encoding of one `-D` occurrence on the command line: either a single
token carrying the attached value (`-Dvalue`) or the bare flag `-D`
followed by the value as a separate token. -/
def encodeD : Tok × Bool → List Tok
  | (v, true) => ['-' :: ('D' :: v)]
  | (v, false) => [['-', 'D'], v]

/-- Concatenated encoding of a left-to-right sequence of `-D` occurrences. -/
def encodeDs : List (Tok × Bool) → List Tok
  | [] => []
  | p :: ps => encodeD p ++ encodeDs ps

/-! ### Helper lemmas about the matcher and the parser -/

theorem matchesOpt_of_not_switch {o t : Tok} (h : headIsSwitch t = false) :
    matchesOpt o t = false := by
  cases t with
  | nil => rfl
  | cons c cs =>
    have h' : isSwitch c = false := by simpa [headIsSwitch] using h
    have hc : c ≠ '-' ∧ c ≠ '/' := by
      constructor <;> (rintro rfl; simp [isSwitch] at h')
    simp [matchesOpt, hc.1, hc.2]

theorem matchesOpt_flag (o : Tok) (c : Char) (v : Tok)
    (ho : o ≠ []) (hc : isSwitch c = true) :
    matchesOpt o (c :: (o ++ v)) = true := by
  have hol : 0 < o.length := List.length_pos.mpr ho
  have hlen : ((c :: (o ++ v)).length == 1) = false := by
    rw [beq_eq_false_iff_ne]
    simp only [List.length_cons, List.length_append]
    omega
  simp only [isSwitch, Bool.or_eq_true, beq_iff_eq] at hc
  unfold matchesOpt
  rcases hc with hc | hc <;>
  · simp [hlen, hc, List.take_left]
    exact Or.inl ho

theorem find_index_none {o : Tok} {l : List Tok}
    (h : ∀ t ∈ l, matchesOpt o t = false) : find_index o l = none := by
  induction l with
  | nil => rfl
  | cons a as ih =>
    have ha := h a (List.mem_cons_self a as)
    simp [find_index, ha, ih fun t ht => h t (List.mem_cons_of_mem a ht)]

theorem find_index_first {o t : Tok} {pre post : List Tok}
    (hpre : ∀ x ∈ pre, matchesOpt o x = false) (ht : matchesOpt o t = true) :
    find_index o (pre ++ t :: post) = some pre.length := by
  induction pre with
  | nil => simp [find_index, ht]
  | cons a as ih =>
    have ha := hpre a (List.mem_cons_self a as)
    have := ih fun x hx => hpre x (List.mem_cons_of_mem a hx)
    simp [find_index, ha, this]

theorem getD_at_len {α : Type} (pre : List α) (t : α) (post : List α) (d : α) :
    (pre ++ t :: post).getD pre.length d = t := by
  induction pre with
  | nil => rfl
  | cons a as ih => simpa [List.getD] using ih

theorem eraseIdx_at_len {α : Type} (pre : List α) (t : α) (post : List α) :
    (pre ++ t :: post).eraseIdx pre.length = pre ++ post := by
  induction pre with
  | nil => rfl
  | cons a as ih => simp [List.eraseIdx, ih]

theorem parse_one_not_found {o : Tok} {l : List Tok}
    (h : ∀ t ∈ l, matchesOpt o t = false) : parse_one o l = (none, l) := by
  simp [parse_one, find_index_none h]

theorem parse_arg_not_found {o : Tok} {l : List Tok}
    (h : ∀ t ∈ l, matchesOpt o t = false) : parse_arg o l = (none, l) := by
  simp [parse_arg, find_index_none h]

theorem parse_one_first {o t : Tok} {pre post : List Tok}
    (hpre : ∀ x ∈ pre, matchesOpt o x = false) (ht : matchesOpt o t = true) :
    parse_one o (pre ++ t :: post) = (some t, pre ++ post) := by
  unfold parse_one
  rw [find_index_first hpre ht]
  simp only [getD_at_len, eraseIdx_at_len]

theorem parse_arg_first_attached {o t : Tok} {pre post : List Tok}
    (hpre : ∀ x ∈ pre, matchesOpt o x = false) (ht : matchesOpt o t = true)
    (hlen : o.length + 1 < t.length) :
    parse_arg o (pre ++ t :: post) =
      (some (t.drop (o.length + 1)), pre ++ post) := by
  unfold parse_arg
  rw [find_index_first hpre ht]
  simp only [getD_at_len, eraseIdx_at_len]
  rw [if_pos hlen]

theorem parse_arg_attached {o : Tok} {c : Char} {v : Tok} {pre post : List Tok}
    (ho : o ≠ []) (hc : isSwitch c = true) (hv : v ≠ [])
    (hpre : ∀ x ∈ pre, matchesOpt o x = false) :
    parse_arg o (pre ++ (c :: (o ++ v)) :: post) = (some v, pre ++ post) := by
  have ht := matchesOpt_flag o c v ho hc
  have hlen : o.length + 1 < (c :: (o ++ v)).length := by
    have := List.length_pos.mpr hv
    simp only [List.length_cons, List.length_append]
    omega
  rw [parse_arg_first_attached hpre ht hlen]
  have : (c :: (o ++ v)).drop (o.length + 1) = v := by
    simp
  rw [this]

theorem parse_arg_detached {o : Tok} {c : Char} {v : Tok} {pre post : List Tok}
    (ho : o ≠ []) (hc : isSwitch c = true)
    (hpre : ∀ x ∈ pre, matchesOpt o x = false) :
    parse_arg o (pre ++ (c :: o) :: v :: post) = (some v, pre ++ post) := by
  have ht : matchesOpt o (c :: o) = true := by
    have := matchesOpt_flag o c [] ho hc
    simpa using this
  unfold parse_arg
  rw [find_index_first hpre ht]
  simp only [getD_at_len]
  have hlen : ¬ (o.length + 1 < (c :: o).length) := by simp
  rw [if_neg hlen]
  have hnext : pre.length + 1 < (pre ++ (c :: o) :: v :: post).length := by
    simp only [List.length_append, List.length_cons]
    omega
  rw [if_pos hnext]
  have hv2 : (pre ++ (c :: o) :: v :: post).getD (pre.length + 1) [] = v := by
    have heq : pre ++ (c :: o) :: v :: post = (pre ++ [c :: o]) ++ v :: post := by
      simp
    have hl : pre.length + 1 = (pre ++ [c :: o]).length := by simp
    rw [heq, hl, getD_at_len]
  rw [hv2, eraseIdx_at_len, eraseIdx_at_len]

theorem mainParse_ok_inv {args : List Tok} {r : Options}
    (h : mainParse args = MainResult.ok r) :
    helpRequested args = false ∧
    ∃ model entry ofile defs input,
      (stageT args).1 = some model ∧ (stageE args).1 = some entry ∧
      (stageFh args).1 = some ofile ∧ stageD args = (defs, [input]) ∧
      r = finishParse model entry ofile (stageVn args).1 defs input := by
  unfold mainParse at h
  cases hh : helpRequested args with
  | true => rw [hh] at h; simp at h
  | false =>
    rw [hh] at h
    simp only [Bool.false_eq_true, if_false] at h
    refine ⟨rfl, ?_⟩
    cases hT : (stageT args).1 with
    | none => rw [hT] at h; simp at h
    | some model =>
    rw [hT] at h
    cases hE : (stageE args).1 with
    | none => rw [hE] at h; simp at h
    | some entry =>
    rw [hE] at h
    cases hFh : (stageFh args).1 with
    | none => rw [hFh] at h; simp at h
    | some ofile =>
    rw [hFh] at h
    rcases hD : stageD args with ⟨defs, rem⟩
    rw [hD] at h
    rcases rem with _ | ⟨input, rest⟩
    · simp at h
    rcases rest with _ | ⟨x, xs⟩
    · simp only [List.isEmpty_nil, if_true] at h
      refine ⟨model, entry, ofile, defs, input, rfl, rfl, rfl, rfl, ?_⟩
      injection h with h2
      exact h2.symm
    · simp at h

theorem collectDefinesFuel_encode
    (ds : List (Tok × Bool)) (rest : List Tok) (fuel : Nat)
    (hfuel : (encodeDs ds ++ rest).length ≤ fuel)
    (hAtt : ∀ p ∈ ds, p.2 = true → p.1 ≠ [])
    (hrest : ∀ t ∈ rest, matchesOpt optD t = false) :
    collectDefinesFuel fuel (encodeDs ds ++ rest) =
      (ds.map (fun p => mkDefine p.1), rest) := by
  induction ds generalizing fuel with
  | nil =>
    simp only [encodeDs, List.nil_append, List.map_nil]
    cases fuel with
    | zero => rfl
    | succ n => simp only [collectDefinesFuel, parse_arg_not_found hrest]
  | cons p ps ih =>
    rcases p with ⟨v, b⟩
    cases b with
    | true =>
      have hv : v ≠ [] := hAtt (v, true) (List.mem_cons_self _ _) rfl
      cases fuel with
      | zero =>
        exfalso
        simp [encodeDs, encodeD, List.length_append] at hfuel
      | succ n =>
        have hlist : encodeDs ((v, true) :: ps) ++ rest =
            ('-' :: ('D' :: v)) :: (encodeDs ps ++ rest) := by
          simp [encodeDs, encodeD]
        have hpa : parse_arg optD (('-' :: ('D' :: v)) :: (encodeDs ps ++ rest)) =
            (some v, encodeDs ps ++ rest) := by
          have := @parse_arg_attached optD '-' v [] (encodeDs ps ++ rest)
            (by decide) (by decide) hv (by intro x hx; simp at hx)
          simpa [optD] using this
        have hfn : (encodeDs ps ++ rest).length ≤ n := by
          rw [hlist] at hfuel
          simp only [List.length_cons] at hfuel
          omega
        rw [hlist]
        simp only [collectDefinesFuel, hpa]
        rw [ih n hfn (fun q hq => hAtt q (List.mem_cons_of_mem _ hq))]
        simp
    | false =>
      cases fuel with
      | zero =>
        exfalso
        simp [encodeDs, encodeD, List.length_append] at hfuel
      | succ n =>
        have hlist : encodeDs ((v, false) :: ps) ++ rest =
            ['-', 'D'] :: v :: (encodeDs ps ++ rest) := by
          simp [encodeDs, encodeD]
        have hpa : parse_arg optD (['-', 'D'] :: v :: (encodeDs ps ++ rest)) =
            (some v, encodeDs ps ++ rest) := by
          have := @parse_arg_detached optD '-' v [] (encodeDs ps ++ rest)
            (by decide) (by decide) (by intro x hx; simp at hx)
          simpa [optD] using this
        have hfn : (encodeDs ps ++ rest).length ≤ n := by
          rw [hlist] at hfuel
          simp only [List.length_cons] at hfuel
          omega
        rw [hlist]
        simp only [collectDefinesFuel, hpa]
        rw [ih n hfn (fun q hq => hAtt q (List.mem_cons_of_mem _ hq))]
        simp

/-! ### Claim theorems -/

/-- Claim C1: for a value-taking option name `o` (as used for `T`, `E`,
`Fh`, `Vn`, `D`) whose first match on the list is the given flag token,
`parse_arg` returns `some v` and removes the consumed tokens both when the
value is attached to the flag in one token (`-Tv` / `/Tv`, `v` being the
characters after the option name) and when it is the next separate token
(`-T v`), and both forms yield the same value `v`. -/
theorem claim1_parse_arg_attached_detached
    (o v : Tok) (c : Char) (pre post : List Tok)
    (ho : o ≠ []) (hv : v ≠ []) (hc : isSwitch c = true)
    (hpre : ∀ t ∈ pre, matchesOpt o t = false) :
    parse_arg o (pre ++ (c :: (o ++ v)) :: post) = (some v, pre ++ post) ∧
    parse_arg o (pre ++ (c :: o) :: v :: post) = (some v, pre ++ post) :=
  ⟨parse_arg_attached ho hc hv hpre, parse_arg_detached ho hc hpre⟩

/-- Witness for C1, at `-Tps_2_0 x.hlsl` versus `-T ps_2_0 x.hlsl`. -/
theorem claim1_witness :
    parse_arg optT [('-' :: (optT ++ "ps_2_0".toList)), "x.hlsl".toList] =
      (some "ps_2_0".toList, ["x.hlsl".toList]) ∧
    parse_arg optT [('-' :: optT), "ps_2_0".toList, "x.hlsl".toList] =
      (some "ps_2_0".toList, ["x.hlsl".toList]) := by
  have h := claim1_parse_arg_attached_detached optT "ps_2_0".toList '-'
    [] ["x.hlsl".toList] (by decide) (by decide) (by decide)
    (by intro t ht; simp at ht)
  simpa using h

/-- Claim C10: a value-taking flag token that matches but carries no
attached value and is the last token makes `parse_arg` return `none`
without removing it, so the dangling flag token stays in the argument
list. -/
theorem claim10_dangling_flag_kept
    (o : Tok) (c : Char) (pre : List Tok)
    (ho : o ≠ []) (hc : isSwitch c = true)
    (hpre : ∀ t ∈ pre, matchesOpt o t = false) :
    parse_arg o (pre ++ [c :: o]) = (none, pre ++ [c :: o]) := by
  have ht : matchesOpt o (c :: o) = true := by
    have := matchesOpt_flag o c [] ho hc
    simpa using this
  unfold parse_arg
  rw [find_index_first hpre ht]
  simp only [getD_at_len]
  have hlen : ¬ (o.length + 1 < (c :: o).length) := by simp
  rw [if_neg hlen]
  have hnext : ¬ (pre.length + 1 < (pre ++ [c :: o]).length) := by
    simp only [List.length_append, List.length_cons, List.length_nil]
    omega
  rw [if_neg hnext]

/-- Witness for C10, at the dangling flag `-T`. -/
theorem claim10_witness :
    parse_arg optT [('-' :: optT)] = (none, [('-' :: optT)]) := by
  have h := claim10_dangling_flag_kept optT '-' [] (by decide) (by decide)
    (by intro t ht; simp at ht)
  simpa using h

/-- Counterexample to C5 as stated: `parse_one` returns the matched token
itself, so on `-nologo` versus `/nologo` the remaining lists agree but the
returned results differ in the switch character they carry. -/
theorem claim5_counterexample :
    (parse_one optNologo [('-' :: optNologo)]).2 =
      (parse_one optNologo [('/' :: optNologo)]).2 ∧
    (parse_one optNologo [('-' :: optNologo)]).1 ≠
      (parse_one optNologo [('/' :: optNologo)]).1 := by decide

/-- Claim C5 (amended): a flag token is recognized identically whether its
switch character is `-` or `/`: replacing the switch character of the
matched flag token leaves `find_index`, the success of `parse_one` and its
remaining argument list, and (except for a dangling value-less flag in last
position) the whole result of `parse_arg` unchanged; only the token string
returned by `parse_one` retains the switch character it was written with. -/
theorem claim5_switch_char_equivalence
    (o v : Tok) (c c' : Char) (pre post : List Tok)
    (ho : o ≠ []) (hc : isSwitch c = true) (hc' : isSwitch c' = true)
    (hpre : ∀ t ∈ pre, matchesOpt o t = false) :
    find_index o (pre ++ (c :: (o ++ v)) :: post) =
      find_index o (pre ++ (c' :: (o ++ v)) :: post) ∧
    (parse_one o (pre ++ (c :: (o ++ v)) :: post)).1.isSome =
      (parse_one o (pre ++ (c' :: (o ++ v)) :: post)).1.isSome ∧
    (parse_one o (pre ++ (c :: (o ++ v)) :: post)).2 =
      (parse_one o (pre ++ (c' :: (o ++ v)) :: post)).2 ∧
    (v ≠ [] ∨ post ≠ [] →
      parse_arg o (pre ++ (c :: (o ++ v)) :: post) =
        parse_arg o (pre ++ (c' :: (o ++ v)) :: post)) := by
  have ht := matchesOpt_flag o c v ho hc
  have ht' := matchesOpt_flag o c' v ho hc'
  refine ⟨?_, ?_, ?_, ?_⟩
  · rw [find_index_first hpre ht, find_index_first hpre ht']
  · rw [parse_one_first hpre ht, parse_one_first hpre ht']
    rfl
  · rw [parse_one_first hpre ht, parse_one_first hpre ht']
  · intro hvp
    rcases eq_or_ne v [] with rfl | hv
    · rcases hvp with hv' | hpost
      · exact absurd rfl hv'
      · rcases post with _ | ⟨p, ps⟩
        · exact absurd rfl hpost
        · have e1 := @parse_arg_detached o c p pre ps ho hc hpre
          have e2 := @parse_arg_detached o c' p pre ps ho hc' hpre
          simp only [List.append_nil]
          rw [e1, e2]
    · rw [parse_arg_attached ho hc hv hpre, parse_arg_attached ho hc' hv hpre]

/-- Witness for the amended C5, at `-Tx` versus `/Tx`. -/
theorem claim5_witness :
    parse_arg optT [('-' :: (optT ++ "x".toList))] =
      parse_arg optT [('/' :: (optT ++ "x".toList))] := by
  have h := claim5_switch_char_equivalence optT "x".toList '-' '/' [] []
    (by decide) (by decide) (by decide) (by intro t ht; simp at ht)
  have h4 := h.2.2.2 (Or.inl (by decide))
  simpa using h4

/-- Counterexample to C6 as stated: with the list `-D -DX2` both tokens
match option `D`; `parse_arg` acts on the leftmost match but consumes the
later matching token `-DX2` as its detached value, so that later matching
token is not left in the list. -/
theorem claim6_counterexample :
    matchesOpt optD ['-', 'D'] = true ∧
    matchesOpt optD "-DX2".toList = true ∧
    parse_arg optD [['-', 'D'], "-DX2".toList] = (some "-DX2".toList, []) := by
  decide

/-- Claim C6 (amended): option lookup is a linear scan with first-match
resolution: `find_index` returns the leftmost matching index, `parse_one`
removes exactly that token (leaving every later token, matching or not),
and `parse_arg` with an attached value also removes only that token; but
when the matched token carries no attached value, `parse_arg` additionally
consumes the immediately following token as the detached value, even if
that following token itself matches the option. -/
theorem claim6_first_match
    (o t : Tok) (pre post : List Tok)
    (hpre : ∀ x ∈ pre, matchesOpt o x = false) (ht : matchesOpt o t = true) :
    find_index o (pre ++ t :: post) = some pre.length ∧
    parse_one o (pre ++ t :: post) = (some t, pre ++ post) ∧
    (o.length + 1 < t.length →
      parse_arg o (pre ++ t :: post) =
        (some (t.drop (o.length + 1)), pre ++ post)) ∧
    (∀ v post', post = v :: post' → ¬ (o.length + 1 < t.length) →
      parse_arg o (pre ++ t :: post) = (some v, pre ++ post')) := by
  refine ⟨find_index_first hpre ht, parse_one_first hpre ht,
    fun hlen => parse_arg_first_attached hpre ht hlen, ?_⟩
  intro v post' hpost hnlen
  subst hpost
  unfold parse_arg
  rw [find_index_first hpre ht]
  simp only [getD_at_len]
  rw [if_neg hnlen]
  have hnext : pre.length + 1 < (pre ++ t :: v :: post').length := by
    simp only [List.length_append, List.length_cons]
    omega
  rw [if_pos hnext]
  have hv2 : (pre ++ t :: v :: post').getD (pre.length + 1) [] = v := by
    have heq : pre ++ t :: v :: post' = (pre ++ [t]) ++ v :: post' := by simp
    have hl : pre.length + 1 = (pre ++ [t]).length := by simp
    rw [heq, hl, getD_at_len]
  rw [hv2, eraseIdx_at_len, eraseIdx_at_len]

/-- Witness for the amended C6, on the list `x -D -DX2`. -/
theorem claim6_witness :
    parse_one optD ["x".toList, ['-', 'D'], "-DX2".toList] =
      (some ['-', 'D'], ["x".toList, "-DX2".toList]) ∧
    parse_arg optD ["x".toList, ['-', 'D'], "-DX2".toList] =
      (some "-DX2".toList, ["x".toList]) := by
  have h := claim6_first_match optD ['-', 'D'] ["x".toList] ["-DX2".toList]
    (by intro x hx; simp at hx; subst hx; decide) (by decide)
  exact ⟨by simpa using h.2.1,
    by simpa using h.2.2.2 "-DX2".toList [] rfl (by decide)⟩

theorem collectDefines_no_match {s : List Tok}
    (h : ∀ t ∈ s, matchesOpt optD t = false) :
    collectDefines s = ([], s) := by
  unfold collectDefines
  cases hs : s.length with
  | zero => rfl
  | succ n => simp only [collectDefinesFuel, parse_arg_not_found h]

theorem takeWhile_append_all {p : Char → Bool} (v rest : Tok)
    (h : ∀ ch ∈ v, p ch = true) :
    (v ++ rest).takeWhile p = v ++ rest.takeWhile p := by
  induction v with
  | nil => simp
  | cons a as ih =>
    have ha := h a (List.mem_cons_self _ _)
    simp [List.takeWhile_cons, ha,
      ih fun ch hch => h ch (List.mem_cons_of_mem a hch)]

theorem dropWhile_append_all {p : Char → Bool} (v rest : Tok)
    (h : ∀ ch ∈ v, p ch = true) :
    (v ++ rest).dropWhile p = rest.dropWhile p := by
  induction v with
  | nil => simp
  | cons a as ih =>
    have ha := h a (List.mem_cons_self _ _)
    simp [List.dropWhile_cons, ha,
      ih fun ch hch => h ch (List.mem_cons_of_mem a hch)]

/-- Claim C8: each `-D` occurrence, written in either the attached or the
detached form, contributes exactly one name/value define, the defines
appear in the same left-to-right order as on the command line, and each
name is the text before the first `=` of the occurrence's value. -/
theorem claim8_defines_in_order
    (ds : List (Tok × Bool)) (rest : List Tok)
    (hAtt : ∀ p ∈ ds, p.2 = true → p.1 ≠ [])
    (hrest : ∀ t ∈ rest, matchesOpt optD t = false) :
    collectDefines (encodeDs ds ++ rest) =
      (ds.map (fun p => (p.1.takeWhile (fun ch => ch != '='), defineValue p.1)),
        rest) := by
  unfold collectDefines
  rw [collectDefinesFuel_encode ds rest _ (le_refl _) hAtt hrest]
  simp [mkDefine, defineName]

/-- Witness for C8, on `-DA=1 -D B x`. -/
theorem claim8_witness :
    collectDefines
        (encodeDs [("A=1".toList, true), ("B".toList, false)] ++ ["x".toList]) =
      ([("A".toList, "1".toList), ("B".toList, "1".toList)], ["x".toList]) := by
  have h := claim8_defines_in_order
    [("A=1".toList, true), ("B".toList, false)] ["x".toList]
    (by decide) (by decide)
  rw [h]
  decide

/-- Claim C9: a `-D` value with no `=` gets the default value `"1"`, so
`-D NAME` is equivalent to `-D NAME=1`, both as a single define and
through the define-collection loop. -/
theorem claim9_define_default_one
    (v : Tok) (hv : v ≠ []) (hne : '=' ∉ v) :
    mkDefine v = (v, ['1']) ∧
    mkDefine (v ++ ['=', '1']) = (v, ['1']) ∧
    collectDefines [('-' :: ('D' :: v))] = ([(v, ['1'])], []) ∧
    collectDefines [('-' :: ('D' :: (v ++ ['=', '1'])))] = ([(v, ['1'])], []) := by
  have hall : ∀ ch ∈ v, (ch != '=') = true := by
    intro ch hch
    rw [bne_iff_ne]
    intro hch2
    exact hne (hch2 ▸ hch)
  have h1 : defineName v = v := List.takeWhile_eq_self_iff.mpr hall
  have h2 : v.dropWhile (fun ch => ch != '=') = [] :=
    List.dropWhile_eq_nil_iff.mpr hall
  have hval : defineValue v = ['1'] := by
    unfold defineValue
    rw [h2]
  have hmk : mkDefine v = (v, ['1']) := by
    unfold mkDefine
    rw [h1, hval]
  have h3 : defineName (v ++ ['=', '1']) = v := by
    unfold defineName
    rw [takeWhile_append_all v _ hall]
    simp
  have h4 : defineValue (v ++ ['=', '1']) = ['1'] := by
    unfold defineValue
    rw [dropWhile_append_all v _ hall]
    decide
  have hmk' : mkDefine (v ++ ['=', '1']) = (v, ['1']) := by
    unfold mkDefine
    rw [h3, h4]
  have hpa : parse_arg optD [('-' :: ('D' :: v))] = (some v, []) := by
    have := @parse_arg_attached optD '-' v [] []
      (by decide) (by decide) hv (by intro x hx; simp at hx)
    simpa [optD] using this
  have hv' : v ++ ['=', '1'] ≠ [] := by simp
  have hpa' : parse_arg optD [('-' :: ('D' :: (v ++ ['=', '1'])))] =
      (some (v ++ ['=', '1']), []) := by
    have := @parse_arg_attached optD '-' (v ++ ['=', '1']) [] []
      (by decide) (by decide) hv' (by intro x hx; simp at hx)
    simpa [optD] using this
  refine ⟨hmk, hmk', ?_, ?_⟩
  · unfold collectDefines
    simp only [List.length_cons, List.length_nil]
    simp only [collectDefinesFuel, hpa, hmk]
  · unfold collectDefines
    simp only [List.length_cons, List.length_nil]
    simp only [collectDefinesFuel, hpa', hmk']

/-- Witness for C9, at the define name `NAME`. -/
theorem claim9_witness :
    collectDefines [('-' :: ('D' :: "NAME".toList))] =
      ([("NAME".toList, ['1'])], []) ∧
    collectDefines [('-' :: ('D' :: ("NAME".toList ++ ['=', '1'])))] =
      ([("NAME".toList, ['1'])], []) := by
  have h := claim9_define_default_one "NAME".toList (by decide) (by decide)
  exact ⟨h.2.2.1, h.2.2.2⟩

/-- Claim C7: whenever a required item cannot be parsed — no `-T` profile,
no `-E` entry point, no `-Fh` output file, or no positional input file —
the run ends in a `missing` diagnostic naming that item, with a failure
exit code, without reaching the external compiler call and without
reaching the output-file creation. -/
theorem claim7_missing_required
    (args : List Tok) (hh : helpRequested args = false) :
    ((stageT args).1 = none →
      mainParse args = MainResult.missing "model".toList) ∧
    (∀ m, (stageT args).1 = some m → (stageE args).1 = none →
      mainParse args = MainResult.missing "entryPoint".toList) ∧
    (∀ m e, (stageT args).1 = some m → (stageE args).1 = some e →
      (stageFh args).1 = none →
      mainParse args = MainResult.missing "outputFile".toList) ∧
    (∀ m e f ds, (stageT args).1 = some m → (stageE args).1 = some e →
      (stageFh args).1 = some f → stageD args = (ds, []) →
      mainParse args = MainResult.missing "inputFile".toList) ∧
    (∀ w, mainParse args = MainResult.missing w →
      (mainParse args).earlyFailureExit = true ∧
      (mainParse args).callsD3DCompile = false ∧
      (mainParse args).createsOutputFile = false) := by
  refine ⟨?_, ?_, ?_, ?_, ?_⟩
  · intro hT
    unfold mainParse
    simp only [hh, Bool.false_eq_true, if_false, hT]
  · intro m hT hE
    unfold mainParse
    simp only [hh, Bool.false_eq_true, if_false, hT, hE]
  · intro m e hT hE hFh
    unfold mainParse
    simp only [hh, Bool.false_eq_true, if_false, hT, hE, hFh]
  · intro m e f ds hT hE hFh hD
    unfold mainParse
    simp only [hh, Bool.false_eq_true, if_false, hT, hE, hFh, hD]
  · intro w hw
    rw [hw]
    exact ⟨rfl, rfl, rfl⟩

/-- Witness for C7, at the empty argument list. -/
theorem claim7_witness :
    mainParse [] = MainResult.missing "model".toList ∧
    (mainParse []).callsD3DCompile = false := by
  have h := claim7_missing_required [] (by decide)
  have h1 := h.1 (by decide)
  exact ⟨h1, (h.2.2.2.2 "model".toList h1).2.1⟩

/-- Claim C2: on every successful parse, the output variable name is the
table fragment for the `-T` profile followed by `_` and the entry point,
or `g_` followed by the entry point when the profile is not in the table,
and the `-Vn` value is used unchanged when it was supplied. -/
theorem claim2_default_variable_name
    (args : List Tok) (r : Options) (h : mainParse args = MainResult.ok r) :
    ((stageVn args).1 = none → ∀ pr, profileLookup r.model = some pr →
      r.variable_name = pr.2 ++ '_' :: r.entry_point) ∧
    ((stageVn args).1 = none → profileLookup r.model = none →
      r.variable_name = 'g' :: '_' :: r.entry_point) ∧
    (∀ v, (stageVn args).1 = some v → r.variable_name = v) := by
  obtain ⟨hh, model, entry, ofile, defs, input, hT, hE, hFh, hD, hr⟩ :=
    mainParse_ok_inv h
  subst hr
  refine ⟨?_, ?_, ?_⟩
  · intro hvn pr hpr
    simp only [finishParse] at hpr ⊢
    simp [hvn, hpr]
  · intro hvn hpr
    simp only [finishParse] at hpr ⊢
    simp [hvn, hpr]
  · intro v hvn
    simp [finishParse, hvn]

/-- Witness for C2, on `-T ps_2_0 -E main -Fh out.h in.hlsl`: the profile
`ps_2_0` is in the table with fragment `g_ps20`, and the default variable
name is `g_ps20_main`. -/
theorem claim2_witness :
    (⟨"ps_2_0".toList, "main".toList, "out.h".toList, "g_ps20_main".toList,
      [], "in.hlsl".toList, 0, 0⟩ : Options).variable_name =
      ("ps_2_0".toList, "g_ps20".toList).2 ++ '_' ::
      (⟨"ps_2_0".toList, "main".toList, "out.h".toList, "g_ps20_main".toList,
        [], "in.hlsl".toList, 0, 0⟩ : Options).entry_point := by
  have h := claim2_default_variable_name
    (["-T", "ps_2_0", "-E", "main", "-Fh", "out.h", "in.hlsl"].map
      String.toList)
    ⟨"ps_2_0".toList, "main".toList, "out.h".toList, "g_ps20_main".toList,
      [], "in.hlsl".toList, 0, 0⟩ (by decide)
  exact h.1 (by decide) ("ps_2_0".toList, "g_ps20".toList) (by decide)

/-- Counterexample to C3 as stated: a command line carrying `-Zi` is not
accepted with the debug bit set; the token is consumed as the positional
input file, so with a real input file present the run aborts as "too many
input files", and without one the run compiles `-Zi` as the input file
with both flag words still `0`. -/
theorem claim3_counterexample :
    mainParse (["-T", "ps_2_0", "-E", "main", "-Fh", "out.h", "-Zi",
      "in.hlsl"].map String.toList) =
      MainResult.tooMany ["in.hlsl".toList] ∧
    mainParse (["-T", "ps_2_0", "-E", "main", "-Fh", "out.h",
      "-Zi"].map String.toList) =
      MainResult.ok ⟨"ps_2_0".toList, "main".toList, "out.h".toList,
        "g_ps20_main".toList, [], "-Zi".toList, 0, 0⟩ := by decide

/-- Claim C3 (amended): the argument parser handles no compiler-option
flags at all; the two flag words passed to the external compile call are
the literal constants `0`, so no command-line flag can set any compiler
flag bit. -/
theorem claim3_flags_always_zero
    (args : List Tok) (r : Options) (h : mainParse args = MainResult.ok r) :
    r.flags1 = 0 ∧ r.flags2 = 0 := by
  obtain ⟨hh, model, entry, ofile, defs, input, hT, hE, hFh, hD, hr⟩ :=
    mainParse_ok_inv h
  subst hr
  exact ⟨rfl, rfl⟩

/-- Witness for the amended C3. -/
theorem claim3_witness :
    (⟨"ps_2_0".toList, "main".toList, "out.h".toList, "g_ps20_main".toList,
      [], "in.hlsl".toList, 0, 0⟩ : Options).flags1 = 0 ∧
    (⟨"ps_2_0".toList, "main".toList, "out.h".toList, "g_ps20_main".toList,
      [], "in.hlsl".toList, 0, 0⟩ : Options).flags2 = 0 :=
  claim3_flags_always_zero
    (["-T", "ps_2_0", "-E", "main", "-Fh", "out.h", "in.hlsl"].map
      String.toList)
    ⟨"ps_2_0".toList, "main".toList, "out.h".toList, "g_ps20_main".toList,
      [], "in.hlsl".toList, 0, 0⟩ (by decide)

/-- Counterexample to C4 as stated: on `-T ps_2_0 -E main -Fh out.h -Zz`
the unknown switch token `-Zz` is not diagnosed; the parse succeeds with
`-Zz` as the input file and the run proceeds toward compilation. -/
theorem claim4_counterexample :
    mainParse (["-T", "ps_2_0", "-E", "main", "-Fh", "out.h",
      "-Zz"].map String.toList) =
      MainResult.ok ⟨"ps_2_0".toList, "main".toList, "out.h".toList,
        "g_ps20_main".toList, [], "-Zz".toList, 0, 0⟩ ∧
    (mainParse (["-T", "ps_2_0", "-E", "main", "-Fh", "out.h",
      "-Zz"].map String.toList)).earlyFailureExit = false := by decide

/-- Claim C4 (amended): a switch-prefixed token whose flag is not one of
the handled options is never diagnosed as unknown.  For every argument
list, once the option parses have run, the first remaining token —
switch-prefixed or not — is consumed as the positional input file and the
run proceeds toward compilation with no failure exit; only when further
tokens remain after it does the program exit non-zero, reporting exactly
those later leftover tokens as unhandled. -/
theorem claim4_first_leftover_is_input
    (args : List Tok) (m e f u : Tok) (ds : List (Tok × Tok)) (l : List Tok)
    (hh : helpRequested args = false)
    (hT : (stageT args).1 = some m) (hE : (stageE args).1 = some e)
    (hFh : (stageFh args).1 = some f)
    (hD : stageD args = (ds, u :: l)) :
    (l = [] →
      mainParse args =
        MainResult.ok (finishParse m e f (stageVn args).1 ds u) ∧
      (mainParse args).inputFile? = some u ∧
      (mainParse args).earlyFailureExit = false) ∧
    (l ≠ [] →
      mainParse args = MainResult.tooMany l ∧
      (mainParse args).earlyFailureExit = true) := by
  constructor
  · intro hl
    subst hl
    have hmain : mainParse args =
        MainResult.ok (finishParse m e f (stageVn args).1 ds u) := by
      unfold mainParse
      simp only [hh, Bool.false_eq_true, if_false, hT, hE, hFh, hD,
        List.isEmpty_nil, if_true]
    exact ⟨hmain, by rw [hmain]; rfl, by rw [hmain]; rfl⟩
  · intro hl
    rcases l with _ | ⟨x, xs⟩
    · exact absurd rfl hl
    have hmain : mainParse args = MainResult.tooMany (x :: xs) := by
      unfold mainParse
      simp only [hh, Bool.false_eq_true, if_false, hT, hE, hFh, hD,
        List.isEmpty_cons, if_false]
    exact ⟨hmain, by rw [hmain]; rfl⟩

/-- Witness for the amended C4: with `-T ps_2_0 -E main -Fh out.h -Zz` the
unknown switch token `-Zz` is the sole leftover and becomes the input
file; with a real input file after it, the run aborts, reporting the later
leftover token. -/
theorem claim4_witness :
    (mainParse (["-T", "ps_2_0", "-E", "main", "-Fh", "out.h",
      "-Zz"].map String.toList)).inputFile? = some "-Zz".toList ∧
    mainParse (["-T", "ps_2_0", "-E", "main", "-Fh", "out.h", "-Zz",
      "in.hlsl"].map String.toList) =
      MainResult.tooMany ["in.hlsl".toList] := by
  constructor
  · have h := (claim4_first_leftover_is_input
      (["-T", "ps_2_0", "-E", "main", "-Fh", "out.h", "-Zz"].map
        String.toList)
      "ps_2_0".toList "main".toList "out.h".toList "-Zz".toList [] []
      (by decide) (by decide) (by decide) (by decide) (by decide)).1 rfl
    exact h.2.1
  · have h := (claim4_first_leftover_is_input
      (["-T", "ps_2_0", "-E", "main", "-Fh", "out.h", "-Zz",
        "in.hlsl"].map String.toList)
      "ps_2_0".toList "main".toList "out.h".toList "-Zz".toList []
      ["in.hlsl".toList]
      (by decide) (by decide) (by decide) (by decide) (by decide)).2
      (by decide)
    exact h.1

end Fxc2
